import Mathlib

/-!
Shallow embedding of the device command protocol layer of the
smart-home-local repository: the table-driven CRC-8 checksum engine
(src/app/crc8.ts), the fixed-layout command-frame encoder, the hex
encoder and the transport-selection dispatchers (src/app/app.ts), the
per-device execute fan-out, and a model of the payload cipher (the
xxtea module is referenced by src/app/app.ts but its source is not in
the repository snapshot, so it is modelled from the specification).

Machine integers are modelled as `Nat` with explicit `% 256` /
`% 2^32` truncation exactly where the JavaScript source truncates.
-/

/-- The exported `CrcPoly` dictionary of src/app/crc8.ts. -/
def CrcPoly.CRC8 : Nat := 0xd5

/-- `CrcPoly.CRC8_CCITT` from src/app/crc8.ts. -/
def CrcPoly.CRC8_CCITT : Nat := 0x07

/-- `CrcPoly.CRC8_DALLAS_MAXIM` from src/app/crc8.ts. -/
def CrcPoly.CRC8_DALLAS_MAXIM : Nat := 0x31

/-- `CrcPoly.CRC8_SAE_J1850` from src/app/crc8.ts. -/
def CrcPoly.CRC8_SAE_J1850 : Nat := 0x1D

/-- `CrcPoly.CRC_8_WCDMA` from src/app/crc8.ts. -/
def CrcPoly.CRC_8_WCDMA : Nat := 0x9b

/-- One iteration of the inner loop of `CRC8.generateTable`
(src/app/crc8.ts lines 31-37): if the high bit 0x80 of `curr` is set,
`curr = ((curr << 1) ^ polynomial) % 256`, else `curr = (curr << 1) % 256`. -/
def crcShift (polynomial curr : Nat) : Nat :=
  if curr &&& 0x80 ≠ 0 then ((curr <<< 1) ^^^ polynomial) % 256
  else (curr <<< 1) % 256

/-- The value stored at index `i` of the table: `curr` starts at `i`
and `crcShift` is applied 8 times (the `for j` loop of
`CRC8.generateTable`). -/
def crcTableEntry (polynomial i : Nat) : Nat :=
  (List.range 8).foldl (fun curr _ => crcShift polynomial curr) i

/-- State of a `CRC8` instance of src/app/crc8.ts: the fields
`polynomial`, `table` and `initial_value`. -/
structure CRC8 where
  polynomial : Nat
  table : List Nat
  initial_value : Nat

/-- `CRC8.generateTable` (src/app/crc8.ts lines 25-42): `csTable[i] =`
the result of 8 `crcShift` iterations starting from `i`, for
`i = 0 .. 255`, using the instance's `polynomial` field. -/
def CRC8.generateTable (polynomial : Nat) : List Nat :=
  (List.range 256).map (crcTableEntry polynomial)

/-- The `CRC8` constructor (src/app/crc8.ts lines 19-23).  The source
assigns `this.polynomial = CrcPoly.CRC8_DALLAS_MAXIM`, ignoring the
`polynomial` argument, then builds the table from `this.polynomial`,
then stores the `initial_value` argument. -/
def CRC8.make (polynomial initial_value : Nat) : CRC8 :=
  { polynomial := CrcPoly.CRC8_DALLAS_MAXIM
    table := CRC8.generateTable CrcPoly.CRC8_DALLAS_MAXIM
    initial_value := initial_value }

/-- `CRC8.checksum` (src/app/crc8.ts lines 44-50): `c` starts at
`this.initial_value`; for each input byte, `c = this.table[(c ^ byte) % 256]`. -/
def CRC8.checksum (c : CRC8) (byte_array : List Nat) : Nat :=
  byte_array.foldl (fun acc b => c.table.getD ((acc ^^^ b) % 256) 0) c.initial_value

/-- `generateChecksum` (src/app/app.ts lines 136-140): computes the
checksum of `data` with `new CRC8(CrcPoly.CRC8_DALLAS_MAXIM, 0xff)`. -/
def generateChecksum (data : List Nat) : Nat :=
  (CRC8.make CrcPoly.CRC8_DALLAS_MAXIM 0xff).checksum data

/-- `generateCommandArr` (src/app/app.ts lines 111-134): the 11-byte
command body (sequence number, magic number, command code, data
length, parameter byte) followed by the checksum byte. -/
def generateCommandArr (deviceType : String) (desiredState : Bool) : List Nat :=
  let command_buf : List Nat :=
    [0x00, 0x00, 0x56, 0x74, 0x70, 0x00, 0x00, 0x00, 0x00, 0x01,
     if desiredState then 0x01 else 0x00]
  let cksum := generateChecksum command_buf
  command_buf ++ [cksum]

/-- `generateCommandBody` (src/app/app.ts): delegates to
`generateCommandArr`. -/
def generateCommandBody (deviceType : String) (command : Bool) : List Nat :=
  generateCommandArr deviceType command

/-- JavaScript `(n).toString(16)` for a natural number: lowercase
base-16 digits, no leading zeros (`"0"` for zero). -/
def jsNumberToString16 (n : Nat) : String :=
  String.mk (Nat.toDigits 16 n)

/-- JavaScript `s.slice(-2)`: the last two characters of `s`. -/
def jsSliceLastTwo (s : String) : String :=
  String.mk (s.data.drop (s.data.length - 2))

/-- One step of `toHexString` (src/app/app.ts lines 142-148):
`('0' + (byte & 0xFF).toString(16)).slice(-2)`. -/
def byteToHexPair (b : Nat) : String :=
  jsSliceLastTwo ("0" ++ jsNumberToString16 (b % 256))

/-- `toHexString` (src/app/app.ts lines 142-148): concatenates the
two-character rendering of each byte, in order. -/
def toHexString (data : List Nat) : String :=
  data.foldl (fun s byte => s ++ byteToHexPair byte) ""

example : toHexString [0x00, 0xFF, 0x07] = "00ff07" := by decide
example : generateChecksum [0x00, 0x00, 0x56, 0x74, 0x70, 0x00, 0x00, 0x00, 0x00, 0x01, 0x01] = 0xfe := by decide
example : (CRC8.make 0x07 0xff).table.getD 1 0 = 0x31 := by decide
example : crcTableEntry 0x07 1 = 0x07 := by decide

/-! ### Helper lemmas -/

lemma list_getD_mem (l : List Nat) (n : Nat) (h : n < l.length) : l.getD n 0 ∈ l := by
  rw [List.getD_eq_getElem?_getD, List.getElem?_eq_getElem h]
  exact List.getElem_mem h

lemma crcShift_lt (p c : Nat) : crcShift p c < 256 := by
  unfold crcShift
  split <;> exact Nat.mod_lt _ (by norm_num)

lemma crcTableEntry_lt (p i : Nat) : crcTableEntry p i < 256 := by
  have h : crcTableEntry p i =
      crcShift p ((List.range 7).foldl (fun curr _ => crcShift p curr) i) := by
    show (List.range 8).foldl (fun curr _ => crcShift p curr) i = _
    rw [show (8 : Nat) = 7 + 1 from rfl, List.range_succ, List.foldl_append]
    rfl
  rw [h]
  exact crcShift_lt _ _

lemma generateTable_length (p : Nat) : (CRC8.generateTable p).length = 256 := by
  simp [CRC8.generateTable]

lemma generateTable_entries_lt (p : Nat) : ∀ x ∈ CRC8.generateTable p, x < 256 := by
  intro x hx
  simp only [CRC8.generateTable, List.mem_map] at hx
  obtain ⟨i, -, rfl⟩ := hx
  exact crcTableEntry_lt p i

lemma crc_fold_lt (t : List Nat) (hlen : t.length = 256) (ht : ∀ x ∈ t, x < 256) :
    ∀ (bytes : List Nat) (init : Nat), init < 256 →
      bytes.foldl (fun acc b => t.getD ((acc ^^^ b) % 256) 0) init < 256 := by
  intro bytes
  induction bytes with
  | nil => intro init h; exact h
  | cons b bs ih =>
      intro init _
      apply ih
      apply ht
      apply list_getD_mem
      rw [hlen]
      exact Nat.mod_lt _ (by norm_num)

set_option maxRecDepth 8192 in
lemma byteToHexPair_eq (b : Nat) :
    byteToHexPair b =
      String.mk [Nat.digitChar (b % 256 / 16), Nat.digitChar (b % 256 % 16)] := by
  have key : ∀ m : Nat, m < 256 →
      byteToHexPair m = String.mk [Nat.digitChar (m / 16), Nat.digitChar (m % 16)] := by
    decide
  have hb : b % 256 < 256 := Nat.mod_lt _ (by norm_num)
  have h2 : byteToHexPair (b % 256) = byteToHexPair b := by
    unfold byteToHexPair
    rw [Nat.mod_mod_of_dvd _ (dvd_refl 256)]
  rw [← h2, key _ hb]

lemma byteToHexPair_length (b : Nat) : (byteToHexPair b).length = 2 := by
  rw [byteToHexPair_eq]
  rfl

lemma toHexString_go (data : List Nat) :
    ∀ s : String, data.foldl (fun s byte => s ++ byteToHexPair byte) s = s ++ toHexString data := by
  induction data with
  | nil => intro s; exact (String.append_empty s).symm
  | cons b bs ih =>
      intro s
      show bs.foldl (fun s byte => s ++ byteToHexPair byte) (s ++ byteToHexPair b) = _
      rw [ih (s ++ byteToHexPair b)]
      show _ = s ++ bs.foldl (fun s byte => s ++ byteToHexPair byte) ("" ++ byteToHexPair b)
      rw [ih ("" ++ byteToHexPair b), String.empty_append, String.append_assoc]

lemma toHexString_cons (b : Nat) (data : List Nat) :
    toHexString (b :: data) = byteToHexPair b ++ toHexString data := by
  show data.foldl (fun s byte => s ++ byteToHexPair byte) ("" ++ byteToHexPair b) = _
  rw [toHexString_go, String.empty_append]

lemma toHexString_length (data : List Nat) :
    (toHexString data).length = 2 * data.length := by
  induction data with
  | nil => rfl
  | cons b bs ih =>
      rw [toHexString_cons, String.length_append, byteToHexPair_length, ih,
        List.length_cons]
      ring

/-! ### Claim theorems: checksum engine and frame builder -/

/-- Claim C1 (code bug evidence): constructing an engine with the
CCITT polynomial 0x07 still yields the Dallas/Maxim (0x31) table,
because the constructor ignores its `polynomial` argument.  Entry 1 of
the constructed table is 0x31, while the 8-step shift recurrence with
polynomial 0x07 gives 0x07 at index 1, so the table does not satisfy
the claimed per-entry recurrence for p = 0x07. -/
theorem crc8_constructor_ignores_polynomial_argument :
    (CRC8.make CrcPoly.CRC8_CCITT 0xff).table = CRC8.generateTable CrcPoly.CRC8_DALLAS_MAXIM ∧
    (CRC8.make CrcPoly.CRC8_CCITT 0xff).table.getD 1 0 = 0x31 ∧
    crcTableEntry CrcPoly.CRC8_CCITT 1 = 0x07 ∧
    (CRC8.make CrcPoly.CRC8_CCITT 0xff).table.getD 1 0 ≠ crcTableEntry CrcPoly.CRC8_CCITT 1 := by
  refine ⟨rfl, by decide, by decide, by decide⟩

/-- Claim C2: for every `desiredState`, the built command frame is
exactly 12 bytes: sequence number 00 00, magic number 56 74, command
code 70 00 00 00, data length 00 01 (big-endian 1), the parameter byte
(0x01 when true, 0x00 when false), and as the final 12th byte the CRC8
checksum computed over exactly the preceding 11 bytes. -/
theorem generateCommandArr_frame_layout (deviceType : String) (desiredState : Bool) :
    (generateCommandArr deviceType desiredState).length = 12 ∧
    (generateCommandArr deviceType desiredState).take 11 =
      [0x00, 0x00, 0x56, 0x74, 0x70, 0x00, 0x00, 0x00, 0x00, 0x01,
       if desiredState then 0x01 else 0x00] ∧
    (generateCommandArr deviceType desiredState).getD 11 0 =
      generateChecksum ((generateCommandArr deviceType desiredState).take 11) := by
  cases desiredState <;> exact ⟨rfl, rfl, rfl⟩

/-- Claim C3 (counterexample): the checksum of the "switch ON" frame
bytes 00 00 56 74 70 00 00 00 00 01 01, as computed by
`generateChecksum` (polynomial 0x31, initial value 0xff), is not
0x24. -/
theorem generateChecksum_on_frame_ne_0x24 :
    generateChecksum [0x00, 0x00, 0x56, 0x74, 0x70, 0x00, 0x00, 0x00, 0x00, 0x01, 0x01] ≠ 0x24 := by
  decide

/-- Claim C3 (amended): the checksum of the ON frame is 0xfe, the
checksum of the OFF frame (last body byte 0x00) is 0xcf, the two
differ, and the full ON command produced by `generateCommandArr`
indeed ends in 0xfe. -/
theorem generateChecksum_on_off_frames :
    generateChecksum [0x00, 0x00, 0x56, 0x74, 0x70, 0x00, 0x00, 0x00, 0x00, 0x01, 0x01] = 0xfe ∧
    generateChecksum [0x00, 0x00, 0x56, 0x74, 0x70, 0x00, 0x00, 0x00, 0x00, 0x01, 0x00] = 0xcf ∧
    generateChecksum [0x00, 0x00, 0x56, 0x74, 0x70, 0x00, 0x00, 0x00, 0x00, 0x01, 0x01] ≠
      generateChecksum [0x00, 0x00, 0x56, 0x74, 0x70, 0x00, 0x00, 0x00, 0x00, 0x01, 0x00] ∧
    generateCommandArr "deviceType" true =
      [0x00, 0x00, 0x56, 0x74, 0x70, 0x00, 0x00, 0x00, 0x00, 0x01, 0x01, 0xfe] := by
  refine ⟨by decide, by decide, by decide, by decide⟩

/-- Claim C4: for every engine state (any table, any initial value),
the checksum is the fold whose state starts at `initial_value` and
steps through `table[(state XOR b) % 256]` for each byte `b`; it is a
total function of its arguments, and the checksum of the empty
sequence is the initial value. -/
theorem checksum_fold_characterization (c : CRC8) (b : Nat) (B : List Nat) :
    c.checksum [] = c.initial_value ∧
    c.checksum (b :: B) =
      CRC8.checksum
        { c with initial_value := c.table.getD ((c.initial_value ^^^ b) % 256) 0 } B := by
  exact ⟨rfl, rfl⟩

/-- Claim C10: the checksum computation never indexes outside the
table: the table built by the constructor has exactly 256 entries and
every entry is a byte; every lookup index `(state XOR b) % 256` is
less than the table length; and starting from any initial value below
256, every intermediate state (the checksum of each prefix of the
input) is below 256. -/
theorem checksum_never_out_of_bounds (p v : Nat) (bytes : List Nat) (hv : v < 256) :
    (CRC8.make p v).table.length = 256 ∧
    (∀ x ∈ (CRC8.make p v).table, x < 256) ∧
    (∀ state b : Nat, (state ^^^ b) % 256 < (CRC8.make p v).table.length) ∧
    (∀ k : Nat, (CRC8.make p v).checksum (bytes.take k) < 256) := by
  have hlen : (CRC8.make p v).table.length = 256 := generateTable_length _
  have hmem : ∀ x ∈ (CRC8.make p v).table, x < 256 := generateTable_entries_lt _
  refine ⟨hlen, hmem, ?_, ?_⟩
  · intro state b
    rw [hlen]
    exact Nat.mod_lt _ (by norm_num)
  · intro k
    exact crc_fold_lt _ hlen hmem (bytes.take k) v hv

/-- Witness for C10 at polynomial 0x31, initial value 0xff and input
bytes 56 74. -/
theorem checksum_never_out_of_bounds_witness :
    (0xff < 256) ∧
    ((CRC8.make 0x31 0xff).table.length = 256 ∧
     (∀ x ∈ (CRC8.make 0x31 0xff).table, x < 256) ∧
     (∀ state b : Nat, (state ^^^ b) % 256 < (CRC8.make 0x31 0xff).table.length) ∧
     (∀ k : Nat, (CRC8.make 0x31 0xff).checksum (([0x56, 0x74] : List Nat).take k) < 256)) :=
  ⟨by decide, checksum_never_out_of_bounds 0x31 0xff [0x56, 0x74] (by decide)⟩

/-- Claim C7: the hex encoding renders each byte as exactly two
lowercase hexadecimal digits, most-significant nibble first,
concatenated in order with no separators, so the output length is
twice the input length; `toHexString [0x00, 0xFF, 0x07] = "00ff07"`. -/
theorem toHexString_two_lowercase_digits_per_byte (b : Nat) (data : List Nat) :
    (toHexString data).length = 2 * data.length ∧
    toHexString (b :: data) = byteToHexPair b ++ toHexString data ∧
    byteToHexPair b = String.mk [Nat.digitChar (b % 256 / 16), Nat.digitChar (b % 256 % 16)] ∧
    (∀ ch ∈ (toHexString data).data, ch ∈ "0123456789abcdef".data) ∧
    toHexString [0x00, 0xFF, 0x07] = "00ff07" := by
  refine ⟨toHexString_length data, toHexString_cons b data, byteToHexPair_eq b, ?_, by decide⟩
  induction data with
  | nil => intro ch h; cases h
  | cons x xs ih =>
      intro ch h
      rw [toHexString_cons] at h
      have hsplit : ch ∈ (byteToHexPair x).data ∨ ch ∈ (toHexString xs).data := by
        have : (byteToHexPair x ++ toHexString xs).data =
            (byteToHexPair x).data ++ (toHexString xs).data := rfl
        rw [this, List.mem_append] at h
        exact h
      rcases hsplit with h1 | h2
      · rw [byteToHexPair_eq] at h1
        have hlo : x % 256 / 16 < 16 := by omega
        have hhi : x % 256 % 16 < 16 := by omega
        have key : ∀ m : Nat, m < 16 → Nat.digitChar m ∈ "0123456789abcdef".data := by decide
        have h1' : ch = Nat.digitChar (x % 256 / 16) ∨ ch = Nat.digitChar (x % 256 % 16) := by
          have hmem : ch ∈ [Nat.digitChar (x % 256 / 16), Nat.digitChar (x % 256 % 16)] := h1
          simpa using hmem
        rcases h1' with h1' | h1'
        · rw [h1']; exact key _ hlo
        · rw [h1']; exact key _ hhi
      · exact ih ch h2

/-! ### Transport layer (src/app/app.ts) -/

/-- Modelled from the spec: the transport-kind enum.  `ControlKind` is
imported by src/app/app.ts from ../common/discovery, which is not in
the repository snapshot; spec section 6 gives `enum{HTTP,TCP,UDP}`. -/
inductive ControlKind where
  | HTTP
  | TCP
  | UDP
deriving DecidableEq

/-- The string form of a transport tag, as interpolated into the
thrown error messages of `makeSendCommand` and `makeReceiveCommand`. -/
def ControlKind.str : ControlKind → String
  | ControlKind.HTTP => "HTTP"
  | ControlKind.TCP => "TCP"
  | ControlKind.UDP => "UDP"

/-- `smarthome.Constants.HttpOperation` values used by app.ts. -/
inductive HttpOperation where
  | GET
  | POST
deriving DecidableEq

/-- `smarthome.Constants.TcpOperation` values used by app.ts. -/
inductive TcpOperation where
  | READ
  | WRITE
deriving DecidableEq

/-- The fields of `smarthome.DataFlow.HttpRequestData` that app.ts
assigns; a fresh object has every field unset (`none`). -/
structure HttpRequestData where
  method : Option HttpOperation := none
  path : Option String := none
  dataType : Option String := none
  data : Option String := none
deriving DecidableEq

/-- The fields of `smarthome.DataFlow.TcpRequestData` that app.ts
assigns. -/
structure TcpRequestData where
  operation : Option TcpOperation := none
  data : Option String := none
  bytesToRead : Option Nat := none
deriving DecidableEq

/-- The fields of `smarthome.DataFlow.UdpRequestData` that app.ts
assigns. -/
structure UdpRequestData where
  data : Option String := none
deriving DecidableEq

/-- Node `buf.toString('hex')`: every byte of the buffer rendered as
two lowercase hexadecimal digits, most-significant nibble first,
concatenated without separators (buffer bytes are below 256, so the
`% 256` inside the rendering is inert). -/
def bufferToHex (buf : List Nat) : String :=
  toHexString buf

/-- `makeUdpSend` (src/app/app.ts lines 48-52). -/
def makeUdpSend (buf : List Nat) : UdpRequestData :=
  { data := some (bufferToHex buf) }

/-- `makeTcpWrite` (src/app/app.ts lines 54-59). -/
def makeTcpWrite (buf : List Nat) : TcpRequestData :=
  { operation := some TcpOperation.WRITE, data := some (bufferToHex buf) }

/-- `makeTcpRead` (src/app/app.ts lines 61-66): operation READ,
`bytesToRead = 1024`. -/
def makeTcpRead : TcpRequestData :=
  { operation := some TcpOperation.READ, bytesToRead := some 1024 }

/-- `makeHttpGet` (src/app/app.ts lines 68-75). -/
def makeHttpGet (path : Option String) : HttpRequestData :=
  { method := some HttpOperation.GET, path := path }

/-- `makeHttpPost` (src/app/app.ts lines 77-91): method POST, `data`
is the hex encoding of the encrypted payload, `dataType` is the
octet-stream marker, `path` is set exactly when the argument is
present.  The encryption call `xxtea.object.encrypt(data, secret)` is
abstracted as the parameter `encryptFn` because the xxtea module is
not in the repository snapshot. -/
def makeHttpPost (encryptFn : List Nat → String → List Nat)
    (data : List Nat) (secret : String) (path : Option String) : HttpRequestData :=
  { method := some HttpOperation.POST
    data := some (toHexString (encryptFn data secret))
    dataType := some "application/octet-stream"
    path := path }

/-- `makeSendCommand` (src/app/app.ts lines 27-35): HTTP delegates to
`makeHttpPost`; every other tag throws
`Unsupported protocol for send: <tag>`. -/
def makeSendCommand (encryptFn : List Nat → String → List Nat)
    (protocol : ControlKind) (data : List Nat) (secret : String)
    (path : Option String) : Except String HttpRequestData :=
  match protocol with
  | ControlKind.HTTP => Except.ok (makeHttpPost encryptFn data secret path)
  | _ => Except.error ("Unsupported protocol for send: " ++ protocol.str)

/-- The union return type of `makeReceiveCommand`. -/
inductive ReceiveCommand where
  | tcp (command : TcpRequestData)
  | http (command : HttpRequestData)
deriving DecidableEq

/-- `makeReceiveCommand` (src/app/app.ts lines 37-46): TCP delegates
to `makeTcpRead`, HTTP to `makeHttpGet`; every other tag throws
`Unsupported protocol for receive: <tag>`. -/
def makeReceiveCommand (protocol : ControlKind) (path : Option String) :
    Except String ReceiveCommand :=
  match protocol with
  | ControlKind.TCP => Except.ok (ReceiveCommand.tcp makeTcpRead)
  | ControlKind.HTTP => Except.ok (ReceiveCommand.http (makeHttpGet path))
  | _ => Except.error ("Unsupported protocol for receive: " ++ protocol.str)

/-- Claim C5: building a send command for HTTP yields method POST, the
octet-stream data type, data equal to the lowercase-hex encoding of
the encrypted payload, and the path argument passed through exactly;
any other transport tag yields a synchronous error naming the tag. -/
theorem makeSendCommand_http_and_unsupported
    (encryptFn : List Nat → String → List Nat) (data : List Nat) (secret : String)
    (path : Option String) (protocol : ControlKind) (hp : protocol ≠ ControlKind.HTTP) :
    makeSendCommand encryptFn ControlKind.HTTP data secret path =
      Except.ok { method := some HttpOperation.POST
                  path := path
                  dataType := some "application/octet-stream"
                  data := some (toHexString (encryptFn data secret)) } ∧
    makeSendCommand encryptFn protocol data secret path =
      Except.error ("Unsupported protocol for send: " ++ protocol.str) := by
  refine ⟨rfl, ?_⟩
  cases protocol with
  | HTTP => exact absurd rfl hp
  | TCP => rfl
  | UDP => rfl

/-- Witness for C5: concrete payload, secret and the `/uricommand`
path used by the execute handler; TCP as the offending tag. -/
theorem makeSendCommand_http_and_unsupported_witness :
    (ControlKind.TCP ≠ ControlKind.HTTP) ∧
    (makeSendCommand (fun d _ => d) ControlKind.HTTP [0x01] "5674567400" (some "/uricommand") =
      Except.ok { method := some HttpOperation.POST
                  path := some "/uricommand"
                  dataType := some "application/octet-stream"
                  data := some (toHexString [0x01]) } ∧
     makeSendCommand (fun d _ => d) ControlKind.TCP [0x01] "5674567400" (some "/uricommand") =
      Except.error ("Unsupported protocol for send: " ++ ControlKind.TCP.str)) :=
  ⟨by decide,
   makeSendCommand_http_and_unsupported (fun d _ => d) [0x01] "5674567400"
     (some "/uricommand") ControlKind.TCP (by decide)⟩

/-- Claim C6 (counterexample): the transport-selection functions do
fail for TCP and UDP on the send side and for UDP on the receive side,
contradicting the claim that neither transport kind fails in the
transport-selection function. -/
theorem makeSendCommand_tcp_udp_do_fail :
    makeSendCommand (fun d _ => d) ControlKind.TCP [] "" none =
      Except.error "Unsupported protocol for send: TCP" ∧
    makeSendCommand (fun d _ => d) ControlKind.UDP [] "" none =
      Except.error "Unsupported protocol for send: UDP" ∧
    makeReceiveCommand ControlKind.UDP none =
      Except.error "Unsupported protocol for receive: UDP" := by
  exact ⟨rfl, rfl, rfl⟩

/-- Claim C6 (amended): `makeTcpRead` (selected by `makeReceiveCommand`
for the TCP kind, which does not fail there) yields operation READ and
the fixed read size 1024, and `makeUdpSend` yields a descriptor
carrying the hex-encoded raw data; but the UDP kind fails in both
selection functions and the TCP kind fails in `makeSendCommand`. -/
theorem makeTcpRead_and_makeUdpSend_descriptors
    (encryptFn : List Nat → String → List Nat) (buf data : List Nat)
    (secret : String) (path : Option String) :
    makeTcpRead.operation = some TcpOperation.READ ∧
    makeTcpRead.bytesToRead = some 1024 ∧
    makeReceiveCommand ControlKind.TCP path = Except.ok (ReceiveCommand.tcp makeTcpRead) ∧
    (makeUdpSend buf).data = some (bufferToHex buf) ∧
    makeSendCommand encryptFn ControlKind.TCP data secret path =
      Except.error ("Unsupported protocol for send: " ++ ControlKind.TCP.str) ∧
    makeSendCommand encryptFn ControlKind.UDP data secret path =
      Except.error ("Unsupported protocol for send: " ++ ControlKind.UDP.str) ∧
    makeReceiveCommand ControlKind.UDP path =
      Except.error ("Unsupported protocol for receive: " ++ ControlKind.UDP.str) := by
  exact ⟨rfl, rfl, rfl, rfl, rfl, rfl, rfl⟩

/-! ### Execute batch fan-out (HomeApp.executeHandler, src/app/app.ts lines 237-263) -/

/-- A target device of one execute batch, as used by the handler
(`device.id`). -/
structure ExecDevice where
  id : String
deriving DecidableEq

/-- The result object of a successful `DeviceManager.send`, of which
the handler reads `result.deviceId`. -/
structure SendResponse where
  deviceId : String
deriving DecidableEq

/-- One recorded per-device outcome of the execute response builder:
`setSuccessState(result.deviceId, state)` or
`setErrorState(device.id, e.errorCode)`. -/
inductive ExecOutcome where
  | success (deviceId : String)
  | failure (deviceId : String) (errorCode : String)
deriving DecidableEq

/-- Whether an outcome is a failure record. -/
def ExecOutcome.isFailure : ExecOutcome → Bool
  | ExecOutcome.failure _ _ => true
  | ExecOutcome.success _ => false

/-- The per-device body of `HomeApp.executeHandler`: await the
external send inside `try`; on success record a success state against
`result.deviceId`, on exception record an error state against
`device.id`.  The external send primitive is the parameter `send`. -/
def executeDeviceOutcome (send : ExecDevice → Except String SendResponse)
    (device : ExecDevice) : ExecOutcome :=
  match send device with
  | Except.ok result => ExecOutcome.success result.deviceId
  | Except.error e => ExecOutcome.failure device.id e

/-- `HomeApp.executeHandler`'s fan-out over `command.devices`
(`Promise.all(command.devices.map(...))`): one outcome is recorded per
targeted device. -/
def executeOutcomes (send : ExecDevice → Except String SendResponse)
    (devices : List ExecDevice) : List ExecOutcome :=
  devices.map (executeDeviceOutcome send)

/-- Whether the external send fails for a device. -/
def sendFails (send : ExecDevice → Except String SendResponse)
    (device : ExecDevice) : Bool :=
  match send device with
  | Except.error _ => true
  | Except.ok _ => false

/-- Claim C9: for N target devices of which exactly K fail, the
aggregated response holds exactly one outcome per device — N outcomes,
K failures, N−K successes — and any reordering of the outcomes (any
completion order) preserves those counts; a failing send never removes
another device's outcome. -/
theorem executeOutcomes_accounting (send : ExecDevice → Except String SendResponse)
    (devices : List ExecDevice) (N K : Nat)
    (hN : devices.length = N) (hK : devices.countP (sendFails send) = K) :
    (executeOutcomes send devices).length = N ∧
    (executeOutcomes send devices).countP ExecOutcome.isFailure = K ∧
    (executeOutcomes send devices).countP (fun o => !o.isFailure) = N - K ∧
    (∀ l : List ExecOutcome, (executeOutcomes send devices).Perm l →
      l.countP ExecOutcome.isFailure = K ∧ l.countP (fun o => !o.isFailure) = N - K) := by
  have hlen : (executeOutcomes send devices).length = N := by
    rw [executeOutcomes, List.length_map, hN]
  have hfail : (executeOutcomes send devices).countP ExecOutcome.isFailure = K := by
    rw [executeOutcomes, List.countP_map, ← hK]
    apply List.countP_congr
    intro d _
    show (executeDeviceOutcome send d).isFailure = true ↔ sendFails send d = true
    unfold executeDeviceOutcome sendFails
    cases send d <;> simp [ExecOutcome.isFailure]
  have hKle : K ≤ N := by
    rw [← hlen, ← hfail]
    exact List.countP_le_length _
  have hsucc : (executeOutcomes send devices).countP (fun o => !o.isFailure) = N - K := by
    have hsplit := List.length_eq_countP_add_countP (p := ExecOutcome.isFailure)
      (l := executeOutcomes send devices)
    have hEq : (executeOutcomes send devices).countP
        (fun a => decide ¬(ExecOutcome.isFailure a = true)) =
        (executeOutcomes send devices).countP (fun o => !o.isFailure) := by
      apply List.countP_congr
      intro o _
      cases o.isFailure <;> simp
    rw [hlen, hfail] at hsplit
    omega
  refine ⟨hlen, hfail, hsucc, ?_⟩
  intro l hperm
  exact ⟨(hperm.countP_eq _).symm.trans hfail, (hperm.countP_eq _).symm.trans hsucc⟩

/-- Witness for C9: three devices of which exactly the middle one
fails. -/
theorem executeOutcomes_accounting_witness :
    (([ExecDevice.mk "a", ExecDevice.mk "b", ExecDevice.mk "c"] : List ExecDevice).length = 3) ∧
    (([ExecDevice.mk "a", ExecDevice.mk "b", ExecDevice.mk "c"] : List ExecDevice).countP
      (sendFails (fun d => if d.id = "b" then Except.error "transport" else Except.ok (SendResponse.mk d.id))) = 1) ∧
    ((executeOutcomes (fun d => if d.id = "b" then Except.error "transport" else Except.ok (SendResponse.mk d.id))
        [ExecDevice.mk "a", ExecDevice.mk "b", ExecDevice.mk "c"]).length = 3 ∧
     (executeOutcomes (fun d => if d.id = "b" then Except.error "transport" else Except.ok (SendResponse.mk d.id))
        [ExecDevice.mk "a", ExecDevice.mk "b", ExecDevice.mk "c"]).countP ExecOutcome.isFailure = 1 ∧
     (executeOutcomes (fun d => if d.id = "b" then Except.error "transport" else Except.ok (SendResponse.mk d.id))
        [ExecDevice.mk "a", ExecDevice.mk "b", ExecDevice.mk "c"]).countP (fun o => !o.isFailure) = 3 - 1 ∧
     (∀ l : List ExecOutcome,
        (executeOutcomes (fun d => if d.id = "b" then Except.error "transport" else Except.ok (SendResponse.mk d.id))
          [ExecDevice.mk "a", ExecDevice.mk "b", ExecDevice.mk "c"]).Perm l →
        l.countP ExecOutcome.isFailure = 1 ∧ l.countP (fun o => !o.isFailure) = 3 - 1)) :=
  ⟨by decide, by decide,
   executeOutcomes_accounting
     (fun d => if d.id = "b" then Except.error "transport" else Except.ok (SendResponse.mk d.id))
     [ExecDevice.mk "a", ExecDevice.mk "b", ExecDevice.mk "c"] 3 1 (by decide) (by decide)⟩

/-! ### Payload cipher (modelled from the spec)

src/app/app.ts encrypts the frame with `xxtea.object.encrypt(data,
secret)` from ./xxtea, a module that is not in the repository
snapshot.  The spec describes it as a shared-secret symmetric block
cipher operating over the whole byte sequence as one unit, rejecting
input whose length is not a multiple of the block size with a
`FormatError`, with `decrypt` the inverse of `encrypt` under the same
secret.  The XXTEA (Corrected Block TEA) algorithm named by the import
is modelled here over 32-bit words (block granularity 4 bytes). -/

/-- 2^32, the word modulus of the cipher. -/
def xxteaM : Nat := 4294967296

/-- The XXTEA round-constant DELTA. -/
def xxteaDELTA : Nat := 0x9e3779b9

/-- Modelled from the spec: the XXTEA mixing function, reduced to a
32-bit word. -/
def xxteaMX (k : List Nat) (sum y z p e : Nat) : Nat :=
  ((((z / 32) ^^^ ((y * 4) % xxteaM)) + ((y / 8) ^^^ ((z * 4) % xxteaM))) ^^^
    ((sum ^^^ y) + ((k.getD ((p % 4) ^^^ e) 0) ^^^ z))) % xxteaM

/-- Modelled from the spec: one word update of an encryption pass over
an `n`-word register file `w`: position `p` is incremented mod 2^32 by
the mix of its cyclic neighbours. -/
def xxteaStepE (k : List Nat) (sum n : Nat) (w : List Nat) (p : Nat) : List Nat :=
  let e := (sum / 4) % 4
  let y := w.getD ((p + 1) % n) 0
  let z := w.getD ((p + n - 1) % n) 0
  w.set p ((w.getD p 0 + xxteaMX k sum y z p e) % xxteaM)

/-- Modelled from the spec: one word update of a decryption pass,
subtracting the same mix mod 2^32. -/
def xxteaStepD (k : List Nat) (sum n : Nat) (p : Nat) (w : List Nat) : List Nat :=
  let e := (sum / 4) % 4
  let y := w.getD ((p + 1) % n) 0
  let z := w.getD ((p + n - 1) % n) 0
  w.set p ((w.getD p 0 + (xxteaM - xxteaMX k sum y z p e)) % xxteaM)

/-- One full encryption pass: positions 0, 1, ..., n-1 in order. -/
def xxteaEncPass (k : List Nat) (sum : Nat) (v : List Nat) : List Nat :=
  (List.range v.length).foldl (xxteaStepE k sum v.length) v

/-- One full decryption pass: positions n-1, ..., 1, 0 in order. -/
def xxteaDecPass (k : List Nat) (sum : Nat) (v : List Nat) : List Nat :=
  (List.range v.length).foldr (xxteaStepD k sum v.length) v

/-- The XXTEA round count `6 + 52/n` for an `n`-word input. -/
def xxteaRounds (n : Nat) : Nat := 6 + 52 / n

/-- Modelled from the spec: word-level encryption, `xxteaRounds`
passes with sums DELTA, 2*DELTA, ... (mod 2^32); inputs of fewer than
two words pass through unchanged. -/
def xxteaEncryptWords (k v : List Nat) : List Nat :=
  if v.length < 2 then v
  else (List.range (xxteaRounds v.length)).foldl
    (fun w r => xxteaEncPass k (((r + 1) * xxteaDELTA) % xxteaM) w) v

/-- Modelled from the spec: word-level decryption, the same pass sums
in reverse order with subtracting steps. -/
def xxteaDecryptWords (k v : List Nat) : List Nat :=
  if v.length < 2 then v
  else (List.range (xxteaRounds v.length)).foldr
    (fun r w => xxteaDecPass k (((r + 1) * xxteaDELTA) % xxteaM) w) v

/-- Little-endian grouping of bytes into 32-bit words (the byte count
is checked to be a multiple of 4 before this is applied). -/
def bytesToWords : List Nat → List Nat
  | b0 :: b1 :: b2 :: b3 :: rest =>
      (b0 % 256 + (b1 % 256) * 256 + (b2 % 256) * 65536 + (b3 % 256) * 16777216) ::
        bytesToWords rest
  | _ => []

/-- Little-endian serialization of 32-bit words back into bytes. -/
def wordsToBytes : List Nat → List Nat
  | [] => []
  | w :: rest =>
      w % 256 :: (w / 256) % 256 :: (w / 65536) % 256 :: (w / 16777216) % 256 ::
        wordsToBytes rest

/-- Modelled from the spec: the 16 key bytes derived from the shared
secret string (character codes, zero-padded or truncated to 16). -/
def secretToKeyBytes (secret : String) : List Nat :=
  let raw := (secret.data.map (fun ch => ch.toNat % 256)).take 16
  raw ++ List.replicate (16 - raw.length) 0

/-- The four 32-bit key words of the cipher. -/
def secretToKey (secret : String) : List Nat :=
  bytesToWords (secretToKeyBytes secret)

/-- Modelled from the spec: `encrypt(frame, secret)` — rejects input
whose length is not a multiple of the 4-byte block granularity with a
FormatError, otherwise encrypts the whole sequence as one unit. -/
def xxteaEncrypt (frame : List Nat) (secret : String) : Except String (List Nat) :=
  if frame.length % 4 ≠ 0 then Except.error "FormatError"
  else Except.ok (wordsToBytes (xxteaEncryptWords (secretToKey secret) (bytesToWords frame)))

/-- Modelled from the spec: `decrypt(ciphertext, secret)`, the inverse
transformation under the same secret. -/
def xxteaDecrypt (ciphertext : List Nat) (secret : String) : Except String (List Nat) :=
  if ciphertext.length % 4 ≠ 0 then Except.error "FormatError"
  else Except.ok (wordsToBytes (xxteaDecryptWords (secretToKey secret) (bytesToWords ciphertext)))

/-! ### Round-trip of the cipher model -/

lemma list_set_getD_self (l : List Nat) (j : Nat) (h : j < l.length) :
    l.set j (l.getD j 0) = l := by
  apply List.ext_getElem?
  intro i
  by_cases hij : i = j
  · subst hij
    rw [List.getElem?_set_self h, List.getD_eq_getElem?_getD, List.getElem?_eq_getElem h]
    rfl
  · exact List.getElem?_set_ne (fun hh => hij hh.symm)

lemma succ_mod_ne (n j : Nat) (hn : 2 ≤ n) (hj : j < n) : (j + 1) % n ≠ j := by
  rcases Nat.lt_or_ge (j + 1) n with h | h
  · rw [Nat.mod_eq_of_lt h]; omega
  · have h1 : j + 1 = n := by omega
    rw [h1, Nat.mod_self]; omega

lemma pred_mod_ne (n j : Nat) (hn : 2 ≤ n) (hj : j < n) : (j + n - 1) % n ≠ j := by
  rcases Nat.eq_zero_or_pos j with h0 | hpos
  · subst h0
    rw [Nat.mod_eq_of_lt (by omega)]; omega
  · have heq : j + n - 1 = (j - 1) + n := by omega
    rw [heq, Nat.add_mod_right, Nat.mod_eq_of_lt (by omega)]
    omega

lemma xxteaM_pos : 0 < xxteaM := by decide

lemma xxteaMX_lt (k : List Nat) (sum y z p e : Nat) : xxteaMX k sum y z p e < xxteaM :=
  Nat.mod_lt _ xxteaM_pos

lemma xxteaStepE_length (k : List Nat) (sum n : Nat) (w : List Nat) (p : Nat) :
    (xxteaStepE k sum n w p).length = w.length := by
  simp [xxteaStepE]

lemma xxteaStepE_lt (k : List Nat) (sum n : Nat) (w : List Nat) (p : Nat)
    (h : ∀ x ∈ w, x < xxteaM) : ∀ x ∈ xxteaStepE k sum n w p, x < xxteaM := by
  intro x hx
  simp only [xxteaStepE] at hx
  rcases List.mem_or_eq_of_mem_set hx with h1 | h1
  · exact h x h1
  · rw [h1]; exact Nat.mod_lt _ xxteaM_pos

lemma foldl_stepE_length (k : List Nat) (sum n : Nat) (l : List Nat) :
    ∀ w : List Nat, (l.foldl (xxteaStepE k sum n) w).length = w.length := by
  induction l with
  | nil => intro w; rfl
  | cons p ps ih =>
      intro w
      rw [List.foldl_cons, ih, xxteaStepE_length]

lemma foldl_stepE_lt (k : List Nat) (sum n : Nat) (l : List Nat) :
    ∀ w : List Nat, (∀ x ∈ w, x < xxteaM) →
      ∀ x ∈ l.foldl (xxteaStepE k sum n) w, x < xxteaM := by
  induction l with
  | nil => intro w hw; exact hw
  | cons p ps ih =>
      intro w hw
      rw [List.foldl_cons]
      exact ih _ (xxteaStepE_lt k sum n w p hw)

lemma step_cancel_generic (w w' : List Nat) (j i1 i2 : Nat) (hjw : j < w.length)
    (h1 : j ≠ i1) (h2 : j ≠ i2)
    (g : Nat → Nat → Nat) (hg : ∀ y z, g y z < xxteaM)
    (hx : w.getD j 0 < xxteaM)
    (hw' : w' = w.set j ((w.getD j 0 + g (w.getD i1 0) (w.getD i2 0)) % xxteaM)) :
    w'.set j ((w'.getD j 0 + (xxteaM - g (w'.getD i1 0) (w'.getD i2 0))) % xxteaM) = w := by
  subst hw'
  have hY : (w.set j ((w.getD j 0 + g (w.getD i1 0) (w.getD i2 0)) % xxteaM)).getD i1 0 =
      w.getD i1 0 := by
    rw [List.getD_eq_getElem?_getD, List.getElem?_set_ne h1, ← List.getD_eq_getElem?_getD]
  have hZ : (w.set j ((w.getD j 0 + g (w.getD i1 0) (w.getD i2 0)) % xxteaM)).getD i2 0 =
      w.getD i2 0 := by
    rw [List.getD_eq_getElem?_getD, List.getElem?_set_ne h2, ← List.getD_eq_getElem?_getD]
  have hX : (w.set j ((w.getD j 0 + g (w.getD i1 0) (w.getD i2 0)) % xxteaM)).getD j 0 =
      (w.getD j 0 + g (w.getD i1 0) (w.getD i2 0)) % xxteaM := by
    rw [List.getD_eq_getElem?_getD, List.getElem?_set_self hjw]
    rfl
  rw [hY, hZ, hX, List.set_set]
  have hm := hg (w.getD i1 0) (w.getD i2 0)
  have harith : ((w.getD j 0 + g (w.getD i1 0) (w.getD i2 0)) % xxteaM +
      (xxteaM - g (w.getD i1 0) (w.getD i2 0))) % xxteaM = w.getD j 0 := by
    rw [Nat.mod_add_mod]
    have he : w.getD j 0 + g (w.getD i1 0) (w.getD i2 0) +
        (xxteaM - g (w.getD i1 0) (w.getD i2 0)) = w.getD j 0 + xxteaM := by omega
    rw [he, Nat.add_mod_right, Nat.mod_eq_of_lt hx]
  rw [harith]
  exact list_set_getD_self w j hjw

lemma xxtea_step_inv (k : List Nat) (sum n : Nat) (w : List Nat) (j : Nat)
    (hn : 2 ≤ n) (hw : w.length = n) (hj : j < n) (hlt : ∀ x ∈ w, x < xxteaM) :
    xxteaStepD k sum n j (xxteaStepE k sum n w j) = w := by
  have hjw : j < w.length := by rw [hw]; exact hj
  have hx : w.getD j 0 < xxteaM := hlt _ (list_getD_mem w j hjw)
  exact step_cancel_generic w (xxteaStepE k sum n w j) j ((j + 1) % n) ((j + n - 1) % n)
    hjw (Ne.symm (succ_mod_ne n j hn hj)) (Ne.symm (pred_mod_ne n j hn hj))
    (fun y z => xxteaMX k sum y z j ((sum / 4) % 4))
    (fun y z => xxteaMX_lt k sum y z j ((sum / 4) % 4)) hx rfl

lemma xxtea_pass_partial_inv (k : List Nat) (sum n : Nat) (v : List Nat)
    (hn : 2 ≤ n) (hv : v.length = n) (hlt : ∀ x ∈ v, x < xxteaM) :
    ∀ j, j ≤ n →
      (List.range j).foldr (xxteaStepD k sum n)
        ((List.range j).foldl (xxteaStepE k sum n) v) = v := by
  intro j
  induction j with
  | zero => intro _; rfl
  | succ j ih =>
      intro hj1
      have hj : j < n := by omega
      rw [List.range_succ, List.foldl_append, List.foldr_append]
      simp only [List.foldl_cons, List.foldl_nil, List.foldr_cons, List.foldr_nil]
      have hlenE : ((List.range j).foldl (xxteaStepE k sum n) v).length = n := by
        rw [foldl_stepE_length]; exact hv
      have hltE : ∀ x ∈ (List.range j).foldl (xxteaStepE k sum n) v, x < xxteaM :=
        foldl_stepE_lt k sum n (List.range j) v hlt
      rw [xxtea_step_inv k sum n _ j hn hlenE hj hltE]
      exact ih (by omega)

lemma xxtea_pass_inv (k : List Nat) (sum : Nat) (v : List Nat)
    (hn : 2 ≤ v.length) (hlt : ∀ x ∈ v, x < xxteaM) :
    xxteaDecPass k sum (xxteaEncPass k sum v) = v := by
  simp only [xxteaDecPass, xxteaEncPass]
  have hlenE : ((List.range v.length).foldl (xxteaStepE k sum v.length) v).length =
      v.length := by
    rw [foldl_stepE_length]
  rw [hlenE]
  exact xxtea_pass_partial_inv k sum v.length v hn rfl hlt v.length (Nat.le_refl _)

lemma xxteaEncPass_length (k : List Nat) (sum : Nat) (v : List Nat) :
    (xxteaEncPass k sum v).length = v.length := by
  simp only [xxteaEncPass]
  rw [foldl_stepE_length]

lemma xxteaEncPass_lt (k : List Nat) (sum : Nat) (v : List Nat)
    (h : ∀ x ∈ v, x < xxteaM) : ∀ x ∈ xxteaEncPass k sum v, x < xxteaM := by
  simp only [xxteaEncPass]
  exact foldl_stepE_lt k sum v.length (List.range v.length) v h

lemma foldl_encPasses_length (k : List Nat) (l : List Nat) :
    ∀ v : List Nat,
      (l.foldl (fun w r => xxteaEncPass k (((r + 1) * xxteaDELTA) % xxteaM) w) v).length =
        v.length := by
  induction l with
  | nil => intro v; rfl
  | cons r rs ih =>
      intro v
      rw [List.foldl_cons, ih, xxteaEncPass_length]

lemma foldl_encPasses_lt (k : List Nat) (l : List Nat) :
    ∀ v : List Nat, (∀ x ∈ v, x < xxteaM) →
      ∀ x ∈ l.foldl (fun w r => xxteaEncPass k (((r + 1) * xxteaDELTA) % xxteaM) w) v,
        x < xxteaM := by
  induction l with
  | nil => intro v hv; exact hv
  | cons r rs ih =>
      intro v hv
      rw [List.foldl_cons]
      exact ih _ (xxteaEncPass_lt k _ v hv)

lemma xxtea_rounds_inv (k : List Nat) (q : Nat) (v : List Nat)
    (hn : 2 ≤ v.length) (hlt : ∀ x ∈ v, x < xxteaM) :
    (List.range q).foldr (fun r w => xxteaDecPass k (((r + 1) * xxteaDELTA) % xxteaM) w)
      ((List.range q).foldl (fun w r => xxteaEncPass k (((r + 1) * xxteaDELTA) % xxteaM) w) v)
      = v := by
  induction q with
  | zero => rfl
  | succ q ih =>
      rw [List.range_succ, List.foldl_append, List.foldr_append]
      simp only [List.foldl_cons, List.foldl_nil, List.foldr_cons, List.foldr_nil]
      have hlenq :
          ((List.range q).foldl
            (fun w r => xxteaEncPass k (((r + 1) * xxteaDELTA) % xxteaM) w) v).length =
            v.length := foldl_encPasses_length k (List.range q) v
      have hltq := foldl_encPasses_lt k (List.range q) v hlt
      rw [xxtea_pass_inv k _ _ (by rw [hlenq]; exact hn) hltq]
      exact ih

lemma xxteaEncryptWords_length (k v : List Nat) :
    (xxteaEncryptWords k v).length = v.length := by
  unfold xxteaEncryptWords
  split
  · rfl
  · exact foldl_encPasses_length k _ v

lemma xxteaEncryptWords_lt (k v : List Nat) (h : ∀ x ∈ v, x < xxteaM) :
    ∀ x ∈ xxteaEncryptWords k v, x < xxteaM := by
  unfold xxteaEncryptWords
  split
  · exact h
  · exact foldl_encPasses_lt k _ v h

lemma xxtea_words_inv (k v : List Nat) (hlt : ∀ x ∈ v, x < xxteaM) :
    xxteaDecryptWords k (xxteaEncryptWords k v) = v := by
  by_cases h : v.length < 2
  · unfold xxteaEncryptWords
    rw [if_pos h]
    unfold xxteaDecryptWords
    rw [if_pos h]
  · have hlen := xxteaEncryptWords_length k v
    unfold xxteaDecryptWords
    rw [hlen, if_neg h]
    unfold xxteaEncryptWords
    rw [if_neg h]
    exact xxtea_rounds_inv k (xxteaRounds v.length) v (by omega) hlt

lemma bytesToWords_lt : ∀ b : List Nat, ∀ w ∈ bytesToWords b, w < xxteaM
  | [] => by intro w hw; simp only [bytesToWords] at hw; cases hw
  | [b0] => by intro w hw; simp only [bytesToWords] at hw; cases hw
  | [b0, b1] => by intro w hw; simp only [bytesToWords] at hw; cases hw
  | [b0, b1, b2] => by intro w hw; simp only [bytesToWords] at hw; cases hw
  | b0 :: b1 :: b2 :: b3 :: rest => by
      intro w hw
      simp only [bytesToWords] at hw
      rcases List.mem_cons.mp hw with h | h
      · rw [h]
        show _ < xxteaM
        unfold xxteaM
        omega
      · exact bytesToWords_lt rest w h

lemma wordsToBytes_length : ∀ w : List Nat, (wordsToBytes w).length = 4 * w.length
  | [] => rfl
  | x :: rest => by
      simp only [wordsToBytes, List.length_cons, wordsToBytes_length rest]
      ring

lemma wordsToBytes_bytesToWords :
    ∀ b : List Nat, b.length % 4 = 0 → (∀ x ∈ b, x < 256) →
      wordsToBytes (bytesToWords b) = b
  | [] => by intro _ _; rfl
  | [b0] => by intro h _; simp at h
  | [b0, b1] => by intro h _; simp at h
  | [b0, b1, b2] => by intro h _; simp at h
  | b0 :: b1 :: b2 :: b3 :: rest => by
      intro hlen hb
      have h0 : b0 < 256 := hb b0 (by simp)
      have h1 : b1 < 256 := hb b1 (by simp)
      have h2 : b2 < 256 := hb b2 (by simp)
      have h3 : b3 < 256 := hb b3 (by simp)
      have hrest : rest.length % 4 = 0 := by
        simp only [List.length_cons] at hlen
        omega
      have hbrest : ∀ x ∈ rest, x < 256 := fun x hx => hb x (by simp [hx])
      simp only [bytesToWords, wordsToBytes,
        wordsToBytes_bytesToWords rest hrest hbrest, List.cons.injEq, and_true]
      refine ⟨by omega, by omega, by omega, by omega⟩

lemma bytesToWords_wordsToBytes :
    ∀ w : List Nat, (∀ x ∈ w, x < xxteaM) → bytesToWords (wordsToBytes w) = w
  | [] => by intro _; rfl
  | x :: rest => by
      intro h
      have hx : x < xxteaM := h x (by simp)
      have hrest : ∀ y ∈ rest, y < xxteaM := fun y hy => h y (by simp [hy])
      simp only [wordsToBytes, bytesToWords,
        bytesToWords_wordsToBytes rest hrest, List.cons.injEq, and_true]
      unfold xxteaM at hx
      omega

/-- Claim C8: decrypting the encryption of a frame with the same
secret yields the original frame, for every frame whose byte length is
a multiple of the cipher's block granularity (and whose entries are
bytes) and every non-empty secret. -/
theorem xxtea_roundtrip (frame : List Nat) (secret : String)
    (hlen : frame.length % 4 = 0) (hbytes : ∀ x ∈ frame, x < 256)
    (hsecret : secret ≠ "") :
    (xxteaEncrypt frame secret).bind (fun ciphertext => xxteaDecrypt ciphertext secret) =
      Except.ok frame := by
  unfold xxteaEncrypt
  rw [if_neg (by omega : ¬frame.length % 4 ≠ 0)]
  show xxteaDecrypt
      (wordsToBytes (xxteaEncryptWords (secretToKey secret) (bytesToWords frame))) secret =
    Except.ok frame
  unfold xxteaDecrypt
  have hctlen :
      (wordsToBytes (xxteaEncryptWords (secretToKey secret) (bytesToWords frame))).length % 4
        = 0 := by
    rw [wordsToBytes_length]
    omega
  rw [if_neg (by omega : ¬(wordsToBytes
      (xxteaEncryptWords (secretToKey secret) (bytesToWords frame))).length % 4 ≠ 0)]
  rw [bytesToWords_wordsToBytes _
      (xxteaEncryptWords_lt (secretToKey secret) _ (bytesToWords_lt frame))]
  rw [xxtea_words_inv (secretToKey secret) _ (bytesToWords_lt frame)]
  rw [wordsToBytes_bytesToWords frame hlen hbytes]

/-- Witness for C8: the 12-byte ON command frame and the secret used
by the execute handler. -/
theorem xxtea_roundtrip_witness :
    (([0x00, 0x00, 0x56, 0x74, 0x70, 0x00, 0x00, 0x00, 0x00, 0x01, 0x01, 0xfe] :
        List Nat).length % 4 = 0) ∧
    (∀ x ∈ ([0x00, 0x00, 0x56, 0x74, 0x70, 0x00, 0x00, 0x00, 0x00, 0x01, 0x01, 0xfe] :
        List Nat), x < 256) ∧
    ("5674567400" ≠ "") ∧
    ((xxteaEncrypt
        [0x00, 0x00, 0x56, 0x74, 0x70, 0x00, 0x00, 0x00, 0x00, 0x01, 0x01, 0xfe]
        "5674567400").bind
      (fun ciphertext => xxteaDecrypt ciphertext "5674567400") =
      Except.ok [0x00, 0x00, 0x56, 0x74, 0x70, 0x00, 0x00, 0x00, 0x00, 0x01, 0x01, 0xfe]) :=
  ⟨by decide, by decide, by decide,
   xxtea_roundtrip [0x00, 0x00, 0x56, 0x74, 0x70, 0x00, 0x00, 0x00, 0x00, 0x01, 0x01, 0xfe]
     "5674567400" (by decide) (by decide) (by decide)⟩
